import Mathlib

/-!
Verification development for the orientATIon legislation scraper and its
Bedrock inference helper.

The Python sources embedded here are the notebook
`notebooks/kc_faq_rag_langchain NSYR_PS.ipynb` (functions
`stringify_children`, `extract_urls`, `save_urls_to_file`,
`extract_legislation_data`, `extract_from_urls`, `save_data_to_file`) and
`notebooks/utils.py` (function `CreateInferenceModifier`).

Strings are modelled as lists of characters, HTML documents as a tree of
element and text nodes, and the network as an explicit input: each fetch
result is passed in as an `Except` value, so a raised request exception and
a successfully fetched page are distinct inputs. Python exceptions raised
while navigating missing markup (`AttributeError`, `KeyError`, `TypeError`)
are modelled by `Option`/`Except` failure.
-/

namespace OrientATIon

/-- Strings as explicit character lists, so that all text operations of the
source can be reasoned about by structural induction. -/
abbrev Str := List Char

/-- Coerce a Lean string literal to the character-list representation. -/
def str (s : String) : Str := s.data

/-- Whitespace test matching the characters stripped by Python `str.strip`
and collapsed by BeautifulSoup text extraction. -/
def isWs (c : Char) : Bool :=
  c = ' ' || c = '\t' || c = '\n' || c = '\r' || c = '\x0b' || c = '\x0c'

/-- Python `str.strip()`: drop whitespace from both ends. -/
def pyStrip (s : Str) : Str :=
  ((s.dropWhile isWs).reverse.dropWhile isWs).reverse

/-- Does `p` occur at the front of `s`? -/
def startsWith : Str → Str → Bool
  | [], _ => true
  | _ :: _, [] => false
  | p :: ps, c :: cs => p == c && startsWith ps cs

/-- Does `p` occur anywhere inside `s` as a contiguous segment? -/
def hasSeg (p : Str) : Str → Bool
  | [] => p.isEmpty
  | c :: cs => startsWith p (c :: cs) || hasSeg p cs

/-- The whitespace-separated words of an attribute value, matching how
BeautifulSoup compares a `class_` argument against a multi-valued class
attribute. -/
def splitWsWords (s : Str) : List Str :=
  (s.splitOnP isWs).filter (fun w => !w.isEmpty)

/-- Python `s.split(sep)[0]`: the part of `s` before the first occurrence of
`sep`, the whole of `s` when `sep` does not occur.  This is the title
truncation used by `extract_legislation_data`. -/
def splitHead (sep : Str) : Str → Str
  | [] => []
  | c :: cs => if startsWith sep (c :: cs) then [] else c :: splitHead sep cs

/-- HTML documents, as produced by `BeautifulSoup(html, "html.parser")`:
a tree of tags carrying attributes, and text nodes. -/
inductive Node where
  | text : Str → Node
  | elem : Str → List (Str × Str) → List Node → Node

namespace Node

/-- Child list of a node; a text node has none. -/
def childrenOf : Node → List Node
  | .text _ => []
  | .elem _ _ cs => cs

/-- First attribute value stored under the given attribute name. -/
def attr (n : Node) (key : Str) : Option Str :=
  match n with
  | .text _ => none
  | .elem _ attrs _ => (attrs.find? (fun kv => kv.1 = key)).map (fun kv => kv.2)

/-- Is this an element with the given tag name? -/
def isTag (tag : Str) : Node → Bool
  | .text _ => false
  | .elem t _ _ => t = tag

mutual

/-- All strict descendants of a node satisfying `p`, in document order.
This is BeautifulSoup `find_all` restricted to a tag, which searches the
descendants of the node it is called on. -/
def findAllN (p : Node → Bool) : Node → List Node
  | .text _ => []
  | .elem _ _ cs => findAllL p cs

/-- All nodes of a forest (each root included) satisfying `p`, in document
order. -/
def findAllL (p : Node → Bool) : List Node → List Node
  | [] => []
  | n :: rest =>
    (if p n then [n] else []) ++ findAllN p n ++ findAllL p rest

end

/-- BeautifulSoup `find`: the first descendant satisfying `p` in document
order, if any. -/
def findFirst (p : Node → Bool) (n : Node) : Option Node :=
  (findAllN p n).head?

mutual

/-- The descendant text fragments of a node, in document order. -/
def textsN : Node → List Str
  | .text s => [s]
  | .elem _ _ cs => textsL cs

/-- The text fragments of a forest, in document order. -/
def textsL : List Node → List Str
  | [] => []
  | n :: rest => textsN n ++ textsL rest

end

/-- BeautifulSoup `get_text(strip=True)`: every text fragment stripped of
surrounding whitespace and concatenated in document order. -/
def getTextStrip (n : Node) : Str :=
  ((textsN n).map pyStrip).flatten

/-- Render one attribute pair as ` key="value"`. -/
def renderAttr (kv : Str × Str) : Str :=
  ' ' :: kv.1 ++ '=' :: '"' :: kv.2 ++ ['"']

mutual

/-- Python `str(node)` on a parse-tree node: text is emitted as is and an
element is emitted as its tag with attributes around the rendering of its
children. -/
def render : Node → Str
  | .text s => s
  | .elem t attrs cs =>
    '<' :: t ++ (attrs.map renderAttr).flatten ++ '>' :: renderL cs ++ '<' :: '/' :: t ++ ['>']

/-- Rendering of a forest: each root in order. -/
def renderL : List Node → Str
  | [] => []
  | n :: rest => render n ++ renderL rest

end

/-- BeautifulSoup `.string`: a text node is its own string; an element with
exactly one child defers to that child; anything else has none. -/
def nodeString : Node → Option Str
  | .text s => some s
  | .elem _ _ [c] => nodeString c
  | .elem _ _ _ => none

end Node

open Node

/-- Embedding of `stringify_children` from the ingestion notebook:
`parts = ([node] if node.string else []) + list(node.children)` joined by
`str`.  The Python truthiness test makes `None` and the empty string both
skip the leading `[node]` part. -/
def stringify_children (node : Node) : Str :=
  (match nodeString node with
   | some s => if s.isEmpty then [] else render node
   | none => []) ++ ((childrenOf node).map render).flatten

/-! ## The JSON values produced by `save_data_to_file`

The corpus file is written with `json.dump(data, outfile, indent=4,
ensure_ascii=False)`.  The data passed in only ever contains strings, lists
and string-keyed dicts, so the value type below carries exactly those three
shapes. -/

/-- JSON values of the corpus file: strings, arrays and objects with fields
in insertion order. -/
inductive JVal where
  | jstr : Str → JVal
  | jarr : List JVal → JVal
  | jobj : List (Str × JVal) → JVal

/-- Hex digit used by the `\uXXXX` escape, lower case as CPython emits it. -/
def hexDigit (n : Nat) : Char :=
  if n < 10 then Char.ofNat ('0'.toNat + n) else Char.ofNat ('a'.toNat + (n - 10))

/-- Escaping of one character by the CPython encoder with
`ensure_ascii=False`: quote, backslash and the named control characters get
two-character escapes, the remaining control characters get `\u00XX`, and
every other character — non-ASCII included — is written verbatim. -/
def escChar (c : Char) : Str :=
  if c = '"' then ['\\', '"']
  else if c = '\\' then ['\\', '\\']
  else if c = '\n' then ['\\', 'n']
  else if c = '\t' then ['\\', 't']
  else if c = '\r' then ['\\', 'r']
  else if c = '\x08' then ['\\', 'b']
  else if c = '\x0c' then ['\\', 'f']
  else if c.toNat < 0x20 then
    ['\\', 'u', '0', '0', hexDigit (c.toNat / 16), hexDigit (c.toNat % 16)]
  else [c]

/-- Escaped body of a JSON string literal. -/
def escStr (s : Str) : Str := (s.map escChar).flatten

/-- A JSON string literal: quoted escaped body. -/
def renderStr (s : Str) : Str := '"' :: escStr s ++ ['"']

/-- Indentation emitted at nesting depth `d` for `indent=4`. -/
def ind (d : Nat) : Str := List.replicate (4 * d) ' '

mutual

/-- The text `json.dump(v, indent=4, ensure_ascii=False)` writes for a value
at nesting depth `d`: empty containers are `[]` and `\x7b\x7d`, non-empty
containers put every item on its own indented line. -/
def renderVal (d : Nat) : JVal → Str
  | .jstr s => renderStr s
  | .jarr [] => ['[', ']']
  | .jarr (x :: xs) =>
    '[' :: '\n' :: (ind (d + 1) ++ renderVal (d + 1) x ++ renderArrTail (d + 1) xs
      ++ '\n' :: (ind d ++ [']']))
  | .jobj [] => ['\x7b', '\x7d']
  | .jobj (f :: fs) =>
    '\x7b' :: '\n' :: (ind (d + 1) ++ renderField (d + 1) f ++ renderObjTail (d + 1) fs
      ++ '\n' :: (ind d ++ ['\x7d']))

/-- Remaining array items, each preceded by `",\n"` and indentation. -/
def renderArrTail (d : Nat) : List JVal → Str
  | [] => []
  | x :: xs => ',' :: '\n' :: (ind d ++ renderVal d x ++ renderArrTail d xs)

/-- One object field: quoted key, `": "`, value. -/
def renderField (d : Nat) : Str × JVal → Str
  | (k, v) => renderStr k ++ ':' :: ' ' :: renderVal d v

/-- Remaining object fields, each preceded by `",\n"` and indentation. -/
def renderObjTail (d : Nat) : List (Str × JVal) → Str
  | [] => []
  | f :: fs => ',' :: '\n' :: (ind d ++ renderField d f ++ renderObjTail d fs)

end

/-! ## The legislation scraper -/

/-- A discovered document reference, as appended by `extract_urls`:
`{"name": card_title, "link": card_link}`. -/
structure UrlEntry where
  name : Str
  link : Str
deriving DecidableEq, Repr

/-- One entry of the `content` list built by `extract_legislation_data`:
either the plain block-text string or an accordion section dict
`{"section": title, "content": content_html}`. -/
inductive ContentBlock where
  | flat : Str → ContentBlock
  | sect : Str → Str → ContentBlock
deriving DecidableEq, Repr

/-- The record returned by `extract_legislation_data`:
`{"title": page_title, "content": all_content, "url": url}`. -/
structure Legislation where
  title : Str
  content : List ContentBlock
  url : Str
deriving DecidableEq, Repr

/-- A failure raised by `requests.get`: connection error, timeout and the
like.  The reason text keeps distinct network failures distinct. -/
structure FetchErr where
  reason : Str
deriving DecidableEq, Repr

/-- The exceptions that can escape a scraper call: a propagated request
failure, or an `AttributeError`-style crash from navigating markup that is
missing the expected structure. -/
inductive ScrapeErr where
  | fetchError : FetchErr → ScrapeErr
  | attributeError : ScrapeErr
deriving DecidableEq, Repr

/-- Left-to-right traversal collecting results, failing at the first
failing element, as a Python `for` loop that appends and lets exceptions
propagate. -/
def mapListO {α β : Type} (f : α → Option β) : List α → Option (List β)
  | [] => some []
  | x :: xs => do
    let y ← f x
    let ys ← mapListO f xs
    pure (y :: ys)

/-- As `mapListO`, with the failure carried by `Except`. -/
def mapListE {α β ε : Type} (f : α → Except ε β) : List α → Except ε (List β)
  | [] => .ok []
  | x :: xs => do
    let y ← f x
    let ys ← mapListE f xs
    pure (y :: ys)

/-- The container looked up by
`soup.find("div", id="nav-national-legislation")`. -/
def containerP (n : Node) : Bool :=
  isTag (str "div") n && n.attr (str "id") == some (str "nav-national-legislation")

/-- The card selector
`data.select("div[class*=...]")` with the literal card class:
a `div` whose class attribute contains the literal as a substring. -/
def cardP (n : Node) : Bool :=
  isTag (str "div") n &&
    (match n.attr (str "class") with
     | some v => hasSeg (str "ps-document-card-type-legislation") v
     | none => false)

/-- The cards found inside the container, in document order. -/
def legislationCards (data : Node) : List Node := findAllN cardP data

/-- The per-card body of the loop in `extract_urls`: title from the first
`h2` descendant, link from the `href` of the first `a` descendant.  A card
without an `h2`, without an `a` or without an `href` raises in Python and
yields `none` here. -/
def cardEntry (card : Node) : Option UrlEntry := do
  let h2 ← findFirst (isTag (str "h2")) card
  let a ← findFirst (isTag (str "a")) card
  let href ← a.attr (str "href")
  pure ⟨getTextStrip h2, href⟩

/-- Embedding of `extract_urls` applied to a fetched page: find the
container, select the cards, extract name and link per card in order.
A missing container makes `data.select` an attribute access on `None`. -/
def extract_urls (soup : Node) : Option (List UrlEntry) := do
  let data ← findFirst containerP soup
  mapListO cardEntry (legislationCards data)

/-- Runner for `extract_urls` together with its network fetch: a request failure
propagates as `fetchError`, a crash on missing markup as
`attributeError`. -/
def extract_urls_run (fetched : Except FetchErr Node) : Except ScrapeErr (List UrlEntry) :=
  match fetched with
  | .error e => .error (.fetchError e)
  | .ok soup =>
    match extract_urls soup with
    | some l => .ok l
    | none => .error .attributeError

/-- BeautifulSoup `class_` matching: the sought class must be one of the
whitespace-separated classes of the attribute value. -/
def classHas (n : Node) (c : Str) : Bool :=
  match n.attr (str "class") with
  | some v => (splitWsWords v).contains c
  | none => false

/-- The layout probe `soup.find("section", class_="paragraph-text")`. -/
def blockTextP (n : Node) : Bool :=
  isTag (str "section") n && classHas n (str "paragraph-text")

/-- The layout probe `soup.find("div", class_="accordion")`. -/
def accordionP (n : Node) : Bool :=
  isTag (str "div") n && classHas n (str "accordion")

/-- The section selector `accordion.find_all("div", class_="accordion-item")`. -/
def accItemP (n : Node) : Bool :=
  isTag (str "div") n && classHas n (str "accordion-item")

/-- The body selector `card.find("div", class_="accordion-body")`. -/
def accBodyP (n : Node) : Bool :=
  isTag (str "div") n && classHas n (str "accordion-body")

/-- Accordion sections of an accordion container, in document order. -/
def accordionItems (acc : Node) : List Node := findAllN accItemP acc

/-- The per-section body of the accordion loop: heading from the first
`button` descendant via `get_text(strip=True)`, body via
`stringify_children` of the first `accordion-body` descendant.  A missing
button or body raises in Python and yields `none` here. -/
def itemBlock (card : Node) : Option ContentBlock := do
  let btn ← findFirst (isTag (str "button")) card
  let body ← findFirst accBodyP card
  pure (.sect (getTextStrip btn) (stringify_children body))

/-- The structural section condition of a well-formed accordion section:
the section has a clickable header and a body container. -/
def wellFormedSection (it : Node) : Prop :=
  (findFirst (isTag (str "button")) it).isSome ∧ (findFirst accBodyP it).isSome

/-- The delimiter `" - "` used to truncate the page title. -/
def sepTitle : Str := str " - "

/-- Embedding of `extract_legislation_data` applied to a fetched page:
title from `soup.title.string.split(" - ")[0]`, then the optional
block-text content, then the optional accordion sections, assembled into
one record.  A document without a `title` string raises in Python and
yields `none` here. -/
def extract_legislation_data (soup : Node) (url : Str) : Option Legislation := do
  let titleTag ← findFirst (isTag (str "title")) soup
  let titleStr ← nodeString titleTag
  let page_title := splitHead sepTitle titleStr
  let blockPart : List ContentBlock :=
    match findFirst blockTextP soup with
    | some bt => [.flat (stringify_children bt)]
    | none => []
  let accPart ←
    match findFirst accordionP soup with
    | some acc => mapListO itemBlock (accordionItems acc)
    | none => pure []
  pure ⟨page_title, blockPart ++ accPart, url⟩

/-- Runner for `extract_legislation_data` together with its network fetch. -/
def extract_legislation_run (fetched : Except FetchErr Node) (url : Str) :
    Except ScrapeErr Legislation :=
  match fetched with
  | .error e => .error (.fetchError e)
  | .ok soup =>
    match extract_legislation_data soup url with
    | some d => .ok d
    | none => .error .attributeError

/-- Embedding of `extract_from_urls`: extract every document in order,
appending to one list.  Any exception raised for one document propagates
and aborts the loop, exactly as an uncaught Python exception leaves the
`for` loop. -/
def extract_from_urls (site : Str → Except FetchErr Node) (urls : List Str) :
    Except ScrapeErr (List Legislation) :=
  mapListE (fun u => extract_legislation_run (site u) u) urls

/-- JSON image of one content block: a bare string for block text, the
`{"section": ..., "content": ...}` dict for an accordion section. -/
def jsonOfBlock : ContentBlock → JVal
  | .flat s => .jstr s
  | .sect h b => .jobj [(str "section", .jstr h), (str "content", .jstr b)]

/-- JSON image of one extracted record, fields in the insertion order of the
`legislation_data` dict literal. -/
def jsonOfDoc (d : Legislation) : JVal :=
  .jobj [(str "title", .jstr d.title),
         (str "content", .jarr (d.content.map jsonOfBlock)),
         (str "url", .jstr d.url)]

/-- JSON image of the whole corpus: the list of records in extraction
order. -/
def jsonOfCorpus (ds : List Legislation) : JVal := .jarr (ds.map jsonOfDoc)

/-- The text `json.dump(data, outfile, indent=4, ensure_ascii=False)` writes
for the corpus. -/
def json_dump_corpus (ds : List Legislation) : Str := renderVal 0 (jsonOfCorpus ds)

/-- Embedding of `save_data_to_file`: run the batch extraction, then write
the serialized corpus.  The result is the persisted file content; when any
extraction raises, the exception propagates before `open` ever runs and no
file content is produced. -/
def save_data_to_file (site : Str → Except FetchErr Node) (urls : List Str) :
    Except ScrapeErr Str :=
  (extract_from_urls site urls).map json_dump_corpus

/-! ## Reading the corpus file back

The repository only ever writes the corpus file; nothing under the sources
reads it back.  The deserializer below is therefore not an embedding of
repository code. -/

/-- Numeric value of one hex digit. -/
def hexVal (c : Char) : Option Nat :=
  if '0' ≤ c ∧ c ≤ '9' then some (c.toNat - '0'.toNat)
  else if 'a' ≤ c ∧ c ≤ 'f' then some (c.toNat - 'a'.toNat + 10)
  else if 'A' ≤ c ∧ c ≤ 'F' then some (c.toNat - 'A'.toNat + 10)
  else none

/-- Modelled from the spec: the reader of a JSON string literal body, after
the opening quote.  Returns the decoded string and the input following the
closing quote. -/
def parseStrBody : Str → Option (Str × Str)
  | [] => none
  | c :: rest =>
    if c = '"' then some ([], rest)
    else if c = '\\' then
      match rest with
      | [] => none
      | e :: rest2 =>
        if e = '"' then (parseStrBody rest2).map (fun p => ('"' :: p.1, p.2))
        else if e = '\\' then (parseStrBody rest2).map (fun p => ('\\' :: p.1, p.2))
        else if e = 'n' then (parseStrBody rest2).map (fun p => ('\n' :: p.1, p.2))
        else if e = 't' then (parseStrBody rest2).map (fun p => ('\t' :: p.1, p.2))
        else if e = 'r' then (parseStrBody rest2).map (fun p => ('\r' :: p.1, p.2))
        else if e = 'b' then (parseStrBody rest2).map (fun p => ('\x08' :: p.1, p.2))
        else if e = 'f' then (parseStrBody rest2).map (fun p => ('\x0c' :: p.1, p.2))
        else if e = 'u' then
          match rest2 with
          | h1 :: h2 :: h3 :: h4 :: rest3 =>
            match hexVal h1, hexVal h2, hexVal h3, hexVal h4 with
            | some a, some b, some c3, some d =>
              (parseStrBody rest3).map
                (fun p => (Char.ofNat (((a * 16 + b) * 16 + c3) * 16 + d) :: p.1, p.2))
            | _, _, _, _ => none
          | _ => none
        else none
    else (parseStrBody rest).map (fun p => (c :: p.1, p.2))

/-- Is the first character of the input this character? -/
def headIsChar (c : Char) : Str → Bool
  | [] => false
  | x :: _ => x = c

/-- JSON insignificant whitespace. -/
def isWsJ (c : Char) : Bool :=
  c = ' ' || c = '\n' || c = '\t' || c = '\r'

/-- Skip insignificant whitespace. -/
def skipWs (s : Str) : Str := s.dropWhile isWsJ

mutual

/-- Modelled from the spec: a reader for the JSON subset the corpus file
uses (strings, arrays, objects).  Fueled to make the recursion structural;
`json_loads` supplies fuel larger than any run the input can need. -/
def parseValue : Nat → Str → Option (JVal × Str)
  | 0, _ => none
  | Nat.succ fuel, s =>
    match skipWs s with
    | '"' :: rest => (parseStrBody rest).map (fun p => (.jstr p.1, p.2))
    | '[' :: rest =>
      if headIsChar ']' (skipWs rest) then some (.jarr [], (skipWs rest).tail)
      else (parseItems fuel rest).map (fun p => (.jarr p.1, p.2))
    | '\x7b' :: rest =>
      if headIsChar '\x7d' (skipWs rest) then some (.jobj [], (skipWs rest).tail)
      else (parseFields fuel rest).map (fun p => (.jobj p.1, p.2))
    | _ => none

/-- Modelled from the spec: one or more comma-separated array items followed
by the closing bracket. -/
def parseItems : Nat → Str → Option (List JVal × Str)
  | 0, _ => none
  | Nat.succ fuel, s =>
    (parseValue fuel s).bind (fun p =>
      match skipWs p.2 with
      | ',' :: r2 => (parseItems fuel r2).map (fun q => (p.1 :: q.1, q.2))
      | ']' :: r2 => some ([p.1], r2)
      | _ => none)

/-- Modelled from the spec: one or more comma-separated object fields
followed by the closing brace. -/
def parseFields : Nat → Str → Option (List (Str × JVal) × Str)
  | 0, _ => none
  | Nat.succ fuel, s =>
    match skipWs s with
    | '"' :: r =>
      (parseStrBody r).bind (fun pk =>
        match skipWs pk.2 with
        | ':' :: r2 =>
          (parseValue fuel r2).bind (fun pv =>
            match skipWs pv.2 with
            | ',' :: r4 => (parseFields fuel r4).map (fun q => ((pk.1, pv.1) :: q.1, q.2))
            | '\x7d' :: r4 => some ([(pk.1, pv.1)], r4)
            | _ => none)
        | _ => none)
    | _ => none

end

/-- Modelled from the spec: `json.load` on the file text, for the subset the
corpus uses.  Succeeds when one value is read and only whitespace
follows. -/
def json_loads (s : Str) : Option JVal :=
  match parseValue (s.length + 1) s with
  | some (v, rest) => if skipWs rest = [] then some v else none
  | none => none

mutual

/-- Fuel sufficient for `parseValue` to read one value. -/
def needV : JVal → Nat
  | .jstr _ => 1
  | .jarr [] => 1
  | .jarr (x :: xs) => 1 + needItems (x :: xs)
  | .jobj [] => 1
  | .jobj (f :: fs) => 1 + needFs (f :: fs)

/-- Fuel sufficient for `parseItems` to read the remaining items. -/
def needItems : List JVal → Nat
  | [] => 0
  | x :: xs => 1 + Nat.max (needV x) (needItems xs)

/-- Fuel sufficient for `parseFields` to read the remaining fields. -/
def needFs : List (Str × JVal) → Nat
  | [] => 0
  | f :: fs => 1 + Nat.max (needV f.2) (needFs fs)

end

/-- Modelled from the spec: decode one content block from its JSON image. -/
def blockOfJson : JVal → Option ContentBlock
  | .jstr s => some (.flat s)
  | .jobj [(k1, .jstr h), (k2, .jstr b)] =>
    if k1 = str "section" ∧ k2 = str "content" then some (.sect h b) else none
  | _ => none

/-- Modelled from the spec: decode one extracted record from its JSON
image. -/
def docOfJson : JVal → Option Legislation
  | .jobj [(k1, .jstr t), (k2, .jarr blocks), (k3, .jstr u)] =>
    if k1 = str "title" ∧ k2 = str "content" ∧ k3 = str "url" then
      (mapListO blockOfJson blocks).map (fun content => ⟨t, content, u⟩)
    else none
  | _ => none

/-- Modelled from the spec: decode the whole corpus from its JSON image. -/
def corpusOfJson : JVal → Option (List Legislation)
  | .jarr docs => mapListO docOfJson docs
  | _ => none

/-- Modelled from the spec: deserialize the persisted corpus file, the
round-trip counterpart of `save_data_to_file`. -/
def json_load_corpus (s : Str) : Option (List Legislation) :=
  (json_loads s).bind corpusOfJson

/-! ## The Bedrock inference helper `CreateInferenceModifier`

From `notebooks/utils.py`, shipped in the repository in compiled form: four
known model families, each returning a parameter dict whose fields are read
from `params` with a per-field fallback, and a `ValueError` for any other
model type.  Python numbers appear here as exact integers and rationals;
nothing in the function computes with them, they are only stored. -/

/-- The parameter values handled by the helper: integers, the float literal
defaults, strings, lists and `None`. -/
inductive PVal where
  | pint : Int → PVal
  | pnum : ℚ → PVal
  | pstr : Str → PVal
  | plist : List PVal → PVal
  | pnone : PVal

/-- Python `params.get(key)`: the value stored under `key`, if any. -/
def pget (params : List (Str × PVal)) (key : Str) : Option PVal :=
  (params.find? (fun kv => kv.1 = key)).map (fun kv => kv.2)

/-- Python `params.get(key, d)`: the stored value, or the default `d` when
the key is missing. -/
def pgetD (params : List (Str × PVal)) (key : Str) (d : PVal) : PVal :=
  (pget params key).getD d

/-- Embedding of `CreateInferenceModifier(model_type, params=None, **kwargs)`
from `notebooks/utils.py`.  When `params` is `None` the collected keyword
arguments are used in its place. -/
def CreateInferenceModifier (model_type : Str) (params : Option (List (Str × PVal)))
    (kwargs : List (Str × PVal)) : Except Str (List (Str × PVal)) :=
  let ps := match params with
    | none => kwargs
    | some p => p
  if model_type = str "amazon" then
    .ok [(str "maxTokenCount", pgetD ps (str "max_tokens") (.pint 8192)),
         (str "temperature", pgetD ps (str "temperature") (.pnum (1 / 2))),
         (str "topP", (pget ps (str "top_p")).getD .pnone),
         (str "stopSequences", .plist [.pstr (str "User:")])]
  else if model_type = str "claude" then
    .ok [(str "max_tokens_to_sample", pgetD ps (str "max_tokens") (.pint 4096)),
         (str "temperature", pgetD ps (str "temperature") (.pnum (1 / 2))),
         (str "top_k", pgetD ps (str "top_k") (.pint 250)),
         (str "top_p", pgetD ps (str "top_p") (.pint 1)),
         (str "stop_sequences",
          pgetD ps (str "stop_sequences") (.plist [.pstr (str "\n\nHuman")]))]
  else if model_type = str "jurassic" then
    .ok [(str "temperature", pgetD ps (str "temperature") (.pnum (1 / 2))),
         (str "topP", pgetD ps (str "top_p") (.pint 1)),
         (str "maxTokens", pgetD ps (str "max_tokens") (.pint 4096)),
         (str "stopSequences",
          pgetD ps (str "stop_sequences") (.plist [.pstr (str "\n\nHuman")]))]
  else if model_type = str "command" then
    .ok [(str "temperature", pgetD ps (str "temperature") (.pnum (1 / 2))),
         (str "p", pgetD ps (str "top_p") (.pint 1)),
         (str "k", pgetD ps (str "top_k") (.pint 250)),
         (str "max_tokens", pgetD ps (str "max_tokens") (.pint 4096)),
         (str "stop_sequences",
          pgetD ps (str "stop_sequences") (.plist [.pstr (str "\n\nHuman")]))]
  else
    .error (str "Unknown model_type: " ++ model_type)

/-- The four model families the helper understands. -/
def cimKnown : List Str :=
  [str "amazon", str "claude", str "jurassic", str "command"]

/-- Field table read off the claim, for comparison against the embedded
function: for each model family, the output key, the `params` key consulted
for it, and the fixed default used when that key is missing. -/
def cimDefaults (mt : Str) : List (Str × Str × PVal) :=
  if mt = str "amazon" then
    [(str "maxTokenCount", str "max_tokens", .pint 8192),
     (str "temperature", str "temperature", .pnum (1 / 2)),
     (str "topP", str "top_p", .pnone),
     (str "stopSequences", str "stop_sequences", .plist [.pstr (str "User:")])]
  else if mt = str "claude" then
    [(str "max_tokens_to_sample", str "max_tokens", .pint 4096),
     (str "temperature", str "temperature", .pnum (1 / 2)),
     (str "top_k", str "top_k", .pint 250),
     (str "top_p", str "top_p", .pint 1),
     (str "stop_sequences", str "stop_sequences", .plist [.pstr (str "\n\nHuman")])]
  else if mt = str "jurassic" then
    [(str "temperature", str "temperature", .pnum (1 / 2)),
     (str "topP", str "top_p", .pint 1),
     (str "maxTokens", str "max_tokens", .pint 4096),
     (str "stopSequences", str "stop_sequences", .plist [.pstr (str "\n\nHuman")])]
  else if mt = str "command" then
    [(str "temperature", str "temperature", .pnum (1 / 2)),
     (str "p", str "top_p", .pint 1),
     (str "k", str "top_k", .pint 250),
     (str "max_tokens", str "max_tokens", .pint 4096),
     (str "stop_sequences", str "stop_sequences", .plist [.pstr (str "\n\nHuman")])]
  else []

/-! ## Concrete documents used in statements and evaluations -/

/-- A legislation card of the index page. -/
def cardHealth : Node :=
  .elem (str "div") [(str "class", str "card ps-document-card-type-legislation x")]
    [.elem (str "h2") [] [.text (str " Health Regulation ")],
     .elem (str "a") [(str "href", str "/doc/health")] [.text (str "go")]]

/-- A second legislation card of the index page. -/
def cardLabor : Node :=
  .elem (str "div") [(str "class", str "ps-document-card-type-legislation")]
    [.elem (str "h2") [] [.text (str "Labor Code")],
     .elem (str "a") [(str "href", str "/doc/labor")] [.text (str "go")]]

/-- The card container of the index page. -/
def navContainer : Node :=
  .elem (str "div") [(str "id", str "nav-national-legislation")] [cardHealth, cardLabor]

/-- An index page holding two legislation cards. -/
def indexPage : Node := .elem (str "html") [] [navContainer]

/-- An index page whose card container is absent. -/
def bareIndexPage : Node := .elem (str "html") [] [.elem (str "div") [] []]

/-- A block-text content section. -/
def healthBlock : Node :=
  .elem (str "section") [(str "class", str "paragraph-text")]
    [.text (str "All residents have access to care.")]

/-- A detail page carrying only the block-text layout. -/
def healthPage : Node :=
  .elem (str "html") []
    [.elem (str "head") [] [.elem (str "title") [] [.text (str "Health Regulation")]],
     .elem (str "body") [] [healthBlock]]

/-- The accordion body of the labor detail page: one text child, so the
BeautifulSoup `.string` of this node is truthy. -/
def accBodyLabor : Node :=
  .elem (str "div") [(str "class", str "accordion-body")] [.text (str "Must be 18+.")]

/-- One accordion section with a button heading and a body. -/
def accItemLabor : Node :=
  .elem (str "div") [(str "class", str "accordion-item")]
    [.elem (str "button") [] [.text (str "Eligibility")], accBodyLabor]

/-- The accordion container of the labor detail page. -/
def accLabor : Node :=
  .elem (str "div") [(str "class", str "accordion")] [accItemLabor]

/-- The title element of the labor detail page; its text carries the site
branding after the `" - "` delimiter. -/
def laborTitleElem : Node :=
  .elem (str "title") [] [.text (str "Labor Code - MulteciHukuku")]

/-- A detail page carrying only the accordion layout. -/
def laborPage : Node :=
  .elem (str "html") []
    [.elem (str "head") [] [laborTitleElem],
     .elem (str "body") [] [accLabor]]

/-- A detail page carrying both layouts at once: block text and accordion. -/
def bothPage : Node :=
  .elem (str "html") []
    [.elem (str "head") [] [laborTitleElem],
     .elem (str "body") [] [healthBlock, accLabor]]

/-- A detail page matching neither layout. -/
def plainPage : Node :=
  .elem (str "html") []
    [.elem (str "head") [] [.elem (str "title") [] [.text (str "Plain")]],
     .elem (str "body") [] [.elem (str "p") [] [.text (str "nothing structured")]]]

/-- A detail page whose accordion container holds no sections. -/
def emptyAccordionPage : Node :=
  .elem (str "html") []
    [.elem (str "title") [] [.text (str "Empty")],
     .elem (str "div") [(str "class", str "accordion")] []]

/-- The timeout raised for the labor document in the fault scenario. -/
def timeoutErr : FetchErr := ⟨str "ReadTimeout"⟩

/-- A network in which the health document fetches fine and every other URL
times out. -/
def siteTwoDocs : Str → Except FetchErr Node := fun u =>
  if u = str "/doc/health" then .ok healthPage else .error timeoutErr

/-- The two URLs of the fault-injection scenario. -/
def twoDocUrls : List Str := [str "/doc/health", str "/doc/labor"]

/-- A one-record corpus with Turkish text in every field position. -/
def corpusTR : List Legislation :=
  [⟨str "Sağlık Yönetmeliği",
    [.flat (str "Tüm bireyler sağlık hizmetlerine erişebilir."),
     .sect (str "Şartlar") (str "18 yaşından büyük olmak gerekir.")],
    str "/doc/saglik"⟩]

/-! ## General lemmas about the traversals -/

theorem mapListO_total {α β : Type} (f : α → Option β) :
    ∀ xs : List α, (∀ x ∈ xs, (f x).isSome) →
      ∃ l, mapListO f xs = some l ∧ List.map some l = List.map f xs := by
  intro xs
  induction xs with
  | nil => exact fun _ => ⟨[], rfl, rfl⟩
  | cons x xs ih =>
    intro h
    obtain ⟨y, hy⟩ := Option.isSome_iff_exists.mp (h x (List.mem_cons_self x xs))
    obtain ⟨l, hl, hm⟩ := ih (fun a ha => h a (List.mem_cons_of_mem _ ha))
    exact ⟨y :: l, by simp [mapListO, hy, hl], by simp [hy, hm]⟩

theorem mapListO_length {α β : Type} (f : α → Option β) :
    ∀ xs l, mapListO f xs = some l → l.length = xs.length := by
  intro xs
  induction xs with
  | nil => intro l h; simp [mapListO] at h; simp [← h]
  | cons x xs ih =>
    intro l h
    cases hy : f x with
    | none => simp [mapListO, hy] at h
    | some y =>
      cases hys : mapListO f xs with
      | none => simp [mapListO, hy, hys] at h
      | some ys =>
        simp [mapListO, hy, hys] at h
        simp [← h, ih ys hys]

theorem mapListE_error {α β ε : Type} (f : α → Except ε β) :
    ∀ xs : List α, (∃ x ∈ xs, ∃ e, f x = .error e) →
      ∃ e, mapListE f xs = .error e := by
  intro xs
  induction xs with
  | nil => rintro ⟨x, hx, _⟩; cases hx
  | cons x xs ih =>
    rintro ⟨y, hy, e, he⟩
    cases hfx : f x with
    | error e0 => exact ⟨e0, by simp only [mapListE, hfx]; rfl⟩
    | ok v =>
      rcases List.mem_cons.mp hy with h | h
      · subst h; rw [hfx] at he; cases he
      · obtain ⟨e1, h1⟩ := ih ⟨y, h, e, he⟩
        exact ⟨e1, by simp only [mapListE, hfx, h1]; rfl⟩

/-! ## Claims about index discovery -/

/-- C1: for every listing page whose card container holds N valid
legislation cards (each with an `h2` title and an `a href` link), index
discovery returns exactly N entries, in the order the cards appear on the
page, each built from its own card. -/
theorem extract_urls_per_card (soup data : Node)
    (hc : findFirst containerP soup = some data)
    (hvalid : ∀ c ∈ legislationCards data,
      (findFirst (isTag (str "h2")) c).isSome ∧
      ((findFirst (isTag (str "a")) c).bind (fun a => a.attr (str "href"))).isSome) :
    ∃ l, extract_urls soup = some l ∧
      l.length = (legislationCards data).length ∧
      List.map some l = List.map cardEntry (legislationCards data) := by
  have hv : ∀ c ∈ legislationCards data, (cardEntry c).isSome := by
    intro c hcmem
    obtain ⟨hh2, hlink⟩ := hvalid c hcmem
    obtain ⟨h2n, hh2n⟩ := Option.isSome_iff_exists.mp hh2
    cases ha : findFirst (isTag (str "a")) c with
    | none => rw [ha] at hlink; cases hlink
    | some a =>
      rw [ha] at hlink
      obtain ⟨href, hhref⟩ := Option.isSome_iff_exists.mp hlink
      simp only [Option.some_bind] at hhref
      simp [cardEntry, hh2n, ha, hhref]
  obtain ⟨l, hl, hm⟩ := mapListO_total cardEntry _ hv
  refine ⟨l, ?_, ?_, hm⟩
  · simp only [extract_urls, hc, Option.bind_eq_bind, Option.some_bind]
    exact hl
  · have h := congrArg List.length hm
    simpa using h

/-- Witness for C1 on a two-card index page. -/
theorem extract_urls_per_card_witness :
    ∃ l, extract_urls indexPage = some l ∧
      l.length = (legislationCards navContainer).length ∧
      List.map some l = List.map cardEntry (legislationCards navContainer) :=
  extract_urls_per_card indexPage navContainer rfl (by decide)

/-- C5: when the card container is absent from the fetched index page, the
discovery run fails with the markup-shaped error, which is a different
value from every fetch failure, and in particular it never returns an empty
(or any) list of documents. -/
theorem container_missing_is_error (page : Node)
    (h : findFirst containerP page = none) :
    extract_urls_run (.ok page) = .error .attributeError ∧
    (∀ l, extract_urls_run (.ok page) ≠ .ok l) ∧
    ∀ e, (ScrapeErr.attributeError : ScrapeErr) ≠ .fetchError e := by
  have hrun : extract_urls_run (.ok page) = .error .attributeError := by
    simp [extract_urls_run, extract_urls, h]
  refine ⟨hrun, ?_, ?_⟩
  · intro l hl
    rw [hrun] at hl
    cases hl
  · intro e he
    cases he

/-- Witness for C5 on an index page without the container. -/
theorem container_missing_is_error_witness :
    extract_urls_run (.ok bareIndexPage) = .error .attributeError ∧
    (∀ l, extract_urls_run (.ok bareIndexPage) ≠ .ok l) ∧
    ∀ e, (ScrapeErr.attributeError : ScrapeErr) ≠ .fetchError e :=
  container_missing_is_error bareIndexPage rfl

/-! ## Claims about document content extraction -/

/-- C2: on a detail page carrying both task layouts, extraction succeeds and
its content starts with the single flat block-text entry, followed by the
accordion section blocks, one per section in document order. -/
theorem extract_both_layouts_block_first (page bt acc tt : Node) (url ts : Str)
    (h1 : findFirst (isTag (str "title")) page = some tt)
    (h2 : nodeString tt = some ts)
    (hbt : findFirst blockTextP page = some bt)
    (hacc : findFirst accordionP page = some acc)
    (hitems : ∀ it ∈ accordionItems acc, wellFormedSection it) :
    ∃ d secs, extract_legislation_data page url = some d ∧
      d.content = ContentBlock.flat (stringify_children bt) :: secs ∧
      List.map some secs = List.map itemBlock (accordionItems acc) := by
  have hv : ∀ it ∈ accordionItems acc, (itemBlock it).isSome := by
    intro it hitmem
    obtain ⟨hbtn, hbody⟩ := hitems it hitmem
    obtain ⟨btn, hbtn2⟩ := Option.isSome_iff_exists.mp hbtn
    obtain ⟨body, hbody2⟩ := Option.isSome_iff_exists.mp hbody
    simp [itemBlock, hbtn2, hbody2]
  obtain ⟨secs, hs, hm⟩ := mapListO_total itemBlock _ hv
  refine ⟨⟨splitHead sepTitle ts, ContentBlock.flat (stringify_children bt) :: secs, url⟩,
    secs, ?_, rfl, hm⟩
  simp [extract_legislation_data, h1, h2, hbt, hacc, hs]

/-- Witness for C2 on a detail page holding block text and an accordion. -/
theorem extract_both_layouts_block_first_witness :
    ∃ d secs, extract_legislation_data bothPage (str "/doc/both") = some d ∧
      d.content = ContentBlock.flat (stringify_children healthBlock) :: secs ∧
      List.map some secs = List.map itemBlock (accordionItems accLabor) :=
  extract_both_layouts_block_first bothPage healthBlock accLabor laborTitleElem
    (str "/doc/both") (str "Labor Code - MulteciHukuku") rfl rfl rfl rfl
    (by
      intro it hit
      rw [show accordionItems accLabor = [accItemLabor] from rfl] at hit
      rw [List.mem_singleton.mp hit]
      exact ⟨by decide, by decide⟩)

/-- C3: a detail page matching neither layout extracts to a record with
empty content rather than an error, and that success value differs from
every fetch-failure value. -/
theorem neither_layout_yields_empty_ok (page tt : Node) (url ts : Str)
    (h1 : findFirst (isTag (str "title")) page = some tt)
    (h2 : nodeString tt = some ts)
    (hbt : findFirst blockTextP page = none)
    (hacc : findFirst accordionP page = none) :
    extract_legislation_run (.ok page) url = .ok ⟨splitHead sepTitle ts, [], url⟩ ∧
    ∀ e, extract_legislation_run (.ok page) url ≠ .error (.fetchError e) := by
  have hrun : extract_legislation_run (.ok page) url =
      .ok ⟨splitHead sepTitle ts, [], url⟩ := by
    simp [extract_legislation_run, extract_legislation_data, h1, h2, hbt, hacc]
  refine ⟨hrun, ?_⟩
  intro e he
  rw [hrun] at he
  cases he

/-- Witness for C3 on a detail page with no recognized layout. -/
theorem neither_layout_yields_empty_ok_witness :
    extract_legislation_run (.ok plainPage) (str "/doc/plain") =
      .ok ⟨splitHead sepTitle (str "Plain"), [], str "/doc/plain"⟩ ∧
    ∀ e, extract_legislation_run (.ok plainPage) (str "/doc/plain") ≠
      .error (.fetchError e) :=
  neither_layout_yields_empty_ok plainPage
    (.elem (str "title") [] [.text (str "Plain")]) (str "/doc/plain") (str "Plain")
    rfl rfl rfl rfl

/-- C4 counterexample: in the fault-injection scenario the health document
is individually extractable, yet one timeout on the labor document makes
the whole batch a fetch error: no corpus output exists at all, so the
persisted corpus does not retain the previously extracted record and no
per-document summary is produced. -/
theorem batch_failure_discards_counterexample :
    (∃ d, extract_legislation_run (siteTwoDocs (str "/doc/health"))
        (str "/doc/health") = .ok d) ∧
    save_data_to_file siteTwoDocs twoDocUrls = .error (.fetchError timeoutErr) ∧
    ∀ out, save_data_to_file siteTwoDocs twoDocUrls ≠ .ok out := by
  have hsave : save_data_to_file siteTwoDocs twoDocUrls =
      .error (.fetchError timeoutErr) := by rfl
  refine ⟨⟨⟨str "Health Regulation",
    [.flat (stringify_children healthBlock)], str "/doc/health"⟩, rfl⟩, hsave, ?_⟩
  intro out hout
  rw [hsave] at hout
  cases hout

/-- C4 amended: one failing document fetch or extraction aborts the whole
batch run; the run produces an error, persists no corpus output, and so
discards every previously extracted record instead of reporting the
failure separately. -/
theorem batch_aborts_on_failure (site : Str → Except FetchErr Node) (urls : List Str)
    (h : ∃ u ∈ urls, ∃ e, extract_legislation_run (site u) u = .error e) :
    (∃ e, save_data_to_file site urls = .error e) ∧
    ∀ out, save_data_to_file site urls ≠ .ok out := by
  obtain ⟨e, he⟩ := mapListE_error (fun u => extract_legislation_run (site u) u) urls h
  have hsave : save_data_to_file site urls = .error e := by
    simp only [save_data_to_file, extract_from_urls, he]
    rfl
  refine ⟨⟨e, hsave⟩, ?_⟩
  intro out hout
  rw [hsave] at hout
  cases hout

/-- Witness for the amended C4 on the fault-injection scenario. -/
theorem batch_aborts_on_failure_witness :
    (∃ e, save_data_to_file siteTwoDocs twoDocUrls = .error e) ∧
    ∀ out, save_data_to_file siteTwoDocs twoDocUrls ≠ .ok out :=
  batch_aborts_on_failure siteTwoDocs twoDocUrls
    ⟨str "/doc/labor", by decide, .fetchError timeoutErr, rfl⟩

/-- C6 counterexample: a page whose accordion container holds no sections
matches the accordion layout, yet extraction returns empty content, so
matching a recognized layout does not make the content sequence
non-empty. -/
theorem empty_accordion_counterexample :
    extract_legislation_data emptyAccordionPage (str "/doc/e") =
      some ⟨str "Empty", [], str "/doc/e"⟩ ∧
    (findFirst accordionP emptyAccordionPage).isSome := by
  exact ⟨rfl, by decide⟩

/-- C6 amended: for every record the extractor returns, the content
sequence is non-empty exactly when the page has a block-text section or an
accordion container holding at least one section; an accordion container
with no sections contributes nothing. -/
theorem content_nonempty_iff_layouts (page : Node) (url : Str) (d : Legislation)
    (h : extract_legislation_data page url = some d) :
    d.content ≠ [] ↔ ((findFirst blockTextP page).isSome ∨
      ∃ acc, findFirst accordionP page = some acc ∧ accordionItems acc ≠ []) := by
  unfold extract_legislation_data at h
  cases htt : findFirst (isTag (str "title")) page with
  | none => simp [htt] at h
  | some tt =>
    cases hts : nodeString tt with
    | none => simp [htt, hts] at h
    | some ts =>
      cases hbt : findFirst blockTextP page with
      | some bt =>
        cases hacc : findFirst accordionP page with
        | none =>
          simp only [htt, hts, hbt, hacc, Option.bind_eq_bind, Option.some_bind,
            Option.pure_def, Option.some.injEq] at h
          constructor
          · intro _; exact Or.inl (by simp [hbt])
          · intro _; rw [← h]; simp
        | some acc =>
          cases hmm : mapListO itemBlock (accordionItems acc) with
          | none => simp [htt, hts, hbt, hacc, hmm] at h
          | some secs =>
            simp only [htt, hts, hbt, hacc, hmm, Option.bind_eq_bind, Option.some_bind,
              Option.pure_def, Option.some.injEq] at h
            constructor
            · intro _; exact Or.inl (by simp [hbt])
            · intro _; rw [← h]; simp
      | none =>
        cases hacc : findFirst accordionP page with
        | none =>
          simp only [htt, hts, hbt, hacc, Option.bind_eq_bind, Option.some_bind,
            Option.pure_def, Option.some.injEq] at h
          constructor
          · intro hne
            exfalso
            apply hne
            rw [← h]
            rfl
          · rintro (hl | ⟨acc, hfa, _⟩)
            · simp at hl
            · cases hfa
        | some acc =>
          cases hmm : mapListO itemBlock (accordionItems acc) with
          | none => simp [htt, hts, hbt, hacc, hmm] at h
          | some secs =>
            simp only [htt, hts, hbt, hacc, hmm, Option.bind_eq_bind, Option.some_bind,
              Option.pure_def, Option.some.injEq] at h
            have hlen := mapListO_length itemBlock (accordionItems acc) secs hmm
            have hcontent : d.content = secs := by rw [← h]; rfl
            constructor
            · intro hne
              refine Or.inr ⟨acc, rfl, ?_⟩
              intro hnil
              apply hne
              rw [hcontent]
              have hz : secs.length = 0 := by rw [hlen, hnil]; rfl
              exact List.length_eq_zero.mp hz
            · rintro (hl | ⟨acc2, hfa, hne⟩)
              · simp at hl
              · injection hfa with hacc2
                subst hacc2
                intro hnil
                apply hne
                rw [hcontent] at hnil
                have hz : (accordionItems acc).length = 0 := by rw [← hlen, hnil]; rfl
                exact List.length_eq_zero.mp hz

/-- Witness for the amended C6 on the accordion-only labor page. -/
theorem content_nonempty_iff_layouts_witness :
    ((⟨str "Labor Code",
        [ContentBlock.sect (str "Eligibility")
          (render accBodyLabor ++ str "Must be 18+.")],
        str "/doc/labor"⟩ : Legislation).content ≠ []) ↔
      ((findFirst blockTextP laborPage).isSome ∨
        ∃ acc, findFirst accordionP laborPage = some acc ∧ accordionItems acc ≠ []) :=
  content_nonempty_iff_layouts laborPage (str "/doc/labor") _ rfl

/-- C7: the code at the failing input.  The labor page has only an
accordion with one section whose body container holds the single text
`Must be 18+.`; extraction does produce exactly one heading-body block, but
the body is the outer markup of the body container followed by its text —
`stringify_children` prepends the node itself whenever its BeautifulSoup
string is truthy — rather than the inner markup of the body container. -/
theorem accordion_body_not_inner_markup :
    extract_legislation_data laborPage (str "/doc/labor") =
      some ⟨str "Labor Code",
        [ContentBlock.sect (str "Eligibility")
          (render accBodyLabor ++ str "Must be 18+.")],
        str "/doc/labor"⟩ ∧
    renderL (childrenOf accBodyLabor) = str "Must be 18+." ∧
    stringify_children accBodyLabor ≠ renderL (childrenOf accBodyLabor) := by
  refine ⟨rfl, rfl, ?_⟩
  decide

/-- The cut produced by `splitHead` is a prefix of the input, no occurrence
of the separator starts before the cut, and the cut sits exactly at an
occurrence unless the whole input is returned. -/
theorem splitHead_first_occurrence (sep : Str) :
    ∀ s : Str,
      (∃ rest, s = splitHead sep s ++ rest) ∧
      (∀ i < (splitHead sep s).length, startsWith sep (s.drop i) = false) ∧
      (startsWith sep (s.drop (splitHead sep s).length) = true ∨ splitHead sep s = s) := by
  intro s
  induction s with
  | nil =>
    refine ⟨⟨[], rfl⟩, ?_, Or.inr rfl⟩
    intro i hi
    simp [splitHead] at hi
  | cons c cs ih =>
    by_cases hst : startsWith sep (c :: cs) = true
    · refine ⟨⟨c :: cs, by simp [splitHead, hst]⟩, ?_, ?_⟩
      · intro i hi
        simp [splitHead, hst] at hi
      · left
        simp [splitHead, hst]
    · have hsplit : splitHead sep (c :: cs) = c :: splitHead sep cs := by
        simp [splitHead, hst]
      obtain ⟨⟨rest, hrest⟩, hnone, hlast⟩ := ih
      refine ⟨⟨rest, ?_⟩, ?_, ?_⟩
      · rw [hsplit]
        simpa using hrest
      · intro i hi
        rw [hsplit] at hi
        cases i with
        | zero =>
          simpa using (Bool.not_eq_true _).mp hst
        | succ j =>
          have hj : j < (splitHead sep cs).length := by
            simpa using Nat.lt_of_succ_lt_succ hi
          simpa using hnone j hj
      · rw [hsplit]
        rcases hlast with hocc | heq
        · left
          simpa using hocc
        · right
          rw [heq]

/-- C9: the extracted title is the prefix of the page title string cut at
the first occurrence of the `" - "` delimiter; when the delimiter does not
occur the whole string is kept. -/
theorem title_truncated_at_first_delim (page tt : Node) (url ts : Str) (d : Legislation)
    (h1 : findFirst (isTag (str "title")) page = some tt)
    (h2 : nodeString tt = some ts)
    (h : extract_legislation_data page url = some d) :
    (∃ rest, ts = d.title ++ rest) ∧
    (∀ i < d.title.length, startsWith sepTitle (ts.drop i) = false) ∧
    (startsWith sepTitle (ts.drop d.title.length) = true ∨ d.title = ts) := by
  have htitle : d.title = splitHead sepTitle ts := by
    unfold extract_legislation_data at h
    rw [h1] at h
    simp only [Option.bind_eq_bind, Option.some_bind] at h
    rw [h2] at h
    simp only [Option.some_bind] at h
    cases hacc : findFirst accordionP page with
    | none =>
      simp only [hacc, Option.pure_def, Option.some_bind, Option.some.injEq] at h
      rw [← h]
    | some acc =>
      cases hmm : mapListO itemBlock (accordionItems acc) with
      | none => simp [hacc, hmm] at h
      | some secs =>
        simp only [hacc, hmm, Option.pure_def, Option.bind_eq_bind, Option.some_bind,
          Option.some.injEq] at h
        rw [← h]
  rw [htitle]
  have hspec := splitHead_first_occurrence sepTitle ts
  rcases hspec with ⟨⟨rest, hrest⟩, hnone, hlast⟩
  exact ⟨⟨rest, hrest⟩, hnone, hlast⟩

/-- Witness for C9 on the labor page, whose title carries site branding
after the delimiter. -/
theorem title_truncated_at_first_delim_witness :
    (∃ rest, str "Labor Code - MulteciHukuku" =
      (⟨str "Labor Code",
        [ContentBlock.sect (str "Eligibility")
          (render accBodyLabor ++ str "Must be 18+.")],
        str "/doc/labor"⟩ : Legislation).title ++ rest) ∧
    (∀ i < (str "Labor Code").length,
      startsWith sepTitle ((str "Labor Code - MulteciHukuku").drop i) = false) ∧
    (startsWith sepTitle
        ((str "Labor Code - MulteciHukuku").drop (str "Labor Code").length) = true ∨
      str "Labor Code" = str "Labor Code - MulteciHukuku") :=
  title_truncated_at_first_delim laborPage laborTitleElem (str "/doc/labor")
    (str "Labor Code - MulteciHukuku") _ rfl rfl rfl

/-! ## The claim about the inference helper -/

/-- C10: the helper raises exactly on unknown model types, and for each of
the four known model families every field whose `params` key is missing is
filled with that family's fixed default value. -/
theorem cim_error_iff_unknown_and_defaults :
    (∀ mt ps kwargs, (∃ e, CreateInferenceModifier mt ps kwargs = .error e) ↔
      mt ∉ cimKnown) ∧
    ∀ mt, mt ∈ cimKnown → ∀ ps, ∃ out,
      CreateInferenceModifier mt (some ps) [] = .ok out ∧
      ∀ okey pkey defv, (okey, pkey, defv) ∈ cimDefaults mt →
        pget ps pkey = none → pget out okey = some defv := by
  constructor
  · intro mt ps kwargs
    constructor
    · rintro ⟨e, he⟩ hmem
      have hm : mt = str "amazon" ∨ mt = str "claude" ∨ mt = str "jurassic" ∨
          mt = str "command" := by simpa [cimKnown] using hmem
      rcases hm with h | h | h | h <;> subst h <;> exact Except.noConfusion he
    · intro hne
      have hs : ¬ (mt = str "amazon" ∨ mt = str "claude" ∨ mt = str "jurassic" ∨
          mt = str "command") := by
        intro hc
        exact hne (by simpa [cimKnown] using hc)
      push_neg at hs
      obtain ⟨h1, h2, h3, h4⟩ := hs
      refine ⟨str "Unknown model_type: " ++ mt, ?_⟩
      unfold CreateInferenceModifier
      rw [if_neg h1, if_neg h2, if_neg h3, if_neg h4]
  · intro mt hmt ps
    have hm : mt = str "amazon" ∨ mt = str "claude" ∨ mt = str "jurassic" ∨
        mt = str "command" := by simpa [cimKnown] using hmt
    rcases hm with h | h | h | h <;> subst h
    · refine ⟨_, rfl, ?_⟩
      intro okey pkey defv hmem hnone
      have hdef : cimDefaults (str "amazon") =
        [(str "maxTokenCount", str "max_tokens", .pint 8192),
         (str "temperature", str "temperature", .pnum (1 / 2)),
         (str "topP", str "top_p", .pnone),
         (str "stopSequences", str "stop_sequences",
          .plist [.pstr (str "User:")])] := rfl
      rw [hdef] at hmem
      simp only [List.mem_cons, List.not_mem_nil, or_false, Prod.mk.injEq] at hmem
      rcases hmem with ⟨ho, hp, hd⟩ | ⟨ho, hp, hd⟩ | ⟨ho, hp, hd⟩ | ⟨ho, hp, hd⟩ <;>
          subst ho <;> subst hp <;> subst hd
      · show some (pgetD ps (str "max_tokens") (.pint 8192)) = some (.pint 8192)
        simp [pgetD, hnone]
      · show some (pgetD ps (str "temperature") (.pnum (1 / 2))) = some (.pnum (1 / 2))
        simp [pgetD, hnone]
      · show some ((pget ps (str "top_p")).getD .pnone) = some .pnone
        simp [hnone]
      · rfl
    · refine ⟨_, rfl, ?_⟩
      intro okey pkey defv hmem hnone
      have hdef : cimDefaults (str "claude") =
        [(str "max_tokens_to_sample", str "max_tokens", .pint 4096),
         (str "temperature", str "temperature", .pnum (1 / 2)),
         (str "top_k", str "top_k", .pint 250),
         (str "top_p", str "top_p", .pint 1),
         (str "stop_sequences", str "stop_sequences",
          .plist [.pstr (str "\n\nHuman")])] := rfl
      rw [hdef] at hmem
      simp only [List.mem_cons, List.not_mem_nil, or_false, Prod.mk.injEq] at hmem
      rcases hmem with ⟨ho, hp, hd⟩ | ⟨ho, hp, hd⟩ | ⟨ho, hp, hd⟩ | ⟨ho, hp, hd⟩ |
          ⟨ho, hp, hd⟩ <;> subst ho <;> subst hp <;> subst hd
      · show some (pgetD ps (str "max_tokens") (.pint 4096)) = some (.pint 4096)
        simp [pgetD, hnone]
      · show some (pgetD ps (str "temperature") (.pnum (1 / 2))) = some (.pnum (1 / 2))
        simp [pgetD, hnone]
      · show some (pgetD ps (str "top_k") (.pint 250)) = some (.pint 250)
        simp [pgetD, hnone]
      · show some (pgetD ps (str "top_p") (.pint 1)) = some (.pint 1)
        simp [pgetD, hnone]
      · show some (pgetD ps (str "stop_sequences") (.plist [.pstr (str "\n\nHuman")])) =
          some (.plist [.pstr (str "\n\nHuman")])
        simp [pgetD, hnone]
    · refine ⟨_, rfl, ?_⟩
      intro okey pkey defv hmem hnone
      have hdef : cimDefaults (str "jurassic") =
        [(str "temperature", str "temperature", .pnum (1 / 2)),
         (str "topP", str "top_p", .pint 1),
         (str "maxTokens", str "max_tokens", .pint 4096),
         (str "stopSequences", str "stop_sequences",
          .plist [.pstr (str "\n\nHuman")])] := rfl
      rw [hdef] at hmem
      simp only [List.mem_cons, List.not_mem_nil, or_false, Prod.mk.injEq] at hmem
      rcases hmem with ⟨ho, hp, hd⟩ | ⟨ho, hp, hd⟩ | ⟨ho, hp, hd⟩ | ⟨ho, hp, hd⟩ <;>
          subst ho <;> subst hp <;> subst hd
      · show some (pgetD ps (str "temperature") (.pnum (1 / 2))) = some (.pnum (1 / 2))
        simp [pgetD, hnone]
      · show some (pgetD ps (str "top_p") (.pint 1)) = some (.pint 1)
        simp [pgetD, hnone]
      · show some (pgetD ps (str "max_tokens") (.pint 4096)) = some (.pint 4096)
        simp [pgetD, hnone]
      · show some (pgetD ps (str "stop_sequences") (.plist [.pstr (str "\n\nHuman")])) =
          some (.plist [.pstr (str "\n\nHuman")])
        simp [pgetD, hnone]
    · refine ⟨_, rfl, ?_⟩
      intro okey pkey defv hmem hnone
      have hdef : cimDefaults (str "command") =
        [(str "temperature", str "temperature", .pnum (1 / 2)),
         (str "p", str "top_p", .pint 1),
         (str "k", str "top_k", .pint 250),
         (str "max_tokens", str "max_tokens", .pint 4096),
         (str "stop_sequences", str "stop_sequences",
          .plist [.pstr (str "\n\nHuman")])] := rfl
      rw [hdef] at hmem
      simp only [List.mem_cons, List.not_mem_nil, or_false, Prod.mk.injEq] at hmem
      rcases hmem with ⟨ho, hp, hd⟩ | ⟨ho, hp, hd⟩ | ⟨ho, hp, hd⟩ | ⟨ho, hp, hd⟩ |
          ⟨ho, hp, hd⟩ <;> subst ho <;> subst hp <;> subst hd
      · show some (pgetD ps (str "temperature") (.pnum (1 / 2))) = some (.pnum (1 / 2))
        simp [pgetD, hnone]
      · show some (pgetD ps (str "top_p") (.pint 1)) = some (.pint 1)
        simp [pgetD, hnone]
      · show some (pgetD ps (str "top_k") (.pint 250)) = some (.pint 250)
        simp [pgetD, hnone]
      · show some (pgetD ps (str "max_tokens") (.pint 4096)) = some (.pint 4096)
        simp [pgetD, hnone]
      · show some (pgetD ps (str "stop_sequences") (.plist [.pstr (str "\n\nHuman")])) =
          some (.plist [.pstr (str "\n\nHuman")])
        simp [pgetD, hnone]

/-! ## Lemmas for the corpus file round trip: string literals -/

theorem parseStrBody_quote (X : Str) : parseStrBody ('"' :: X) = some ([], X) := by
  rw [parseStrBody.eq_def]; rfl

theorem parseStrBody_esc_quote (X : Str) :
    parseStrBody ('\\' :: '"' :: X) = (parseStrBody X).map (fun p => ('"' :: p.1, p.2)) := by
  rw [parseStrBody.eq_def]; rfl

theorem parseStrBody_esc_back (X : Str) :
    parseStrBody ('\\' :: '\\' :: X) = (parseStrBody X).map (fun p => ('\\' :: p.1, p.2)) := by
  rw [parseStrBody.eq_def]; rfl

theorem parseStrBody_esc_n (X : Str) :
    parseStrBody ('\\' :: 'n' :: X) = (parseStrBody X).map (fun p => ('\n' :: p.1, p.2)) := by
  rw [parseStrBody.eq_def]; rfl

theorem parseStrBody_esc_t (X : Str) :
    parseStrBody ('\\' :: 't' :: X) = (parseStrBody X).map (fun p => ('\t' :: p.1, p.2)) := by
  rw [parseStrBody.eq_def]; rfl

theorem parseStrBody_esc_r (X : Str) :
    parseStrBody ('\\' :: 'r' :: X) = (parseStrBody X).map (fun p => ('\r' :: p.1, p.2)) := by
  rw [parseStrBody.eq_def]; rfl

theorem parseStrBody_esc_b (X : Str) :
    parseStrBody ('\\' :: 'b' :: X) = (parseStrBody X).map (fun p => ('\x08' :: p.1, p.2)) := by
  rw [parseStrBody.eq_def]; rfl

theorem parseStrBody_esc_f (X : Str) :
    parseStrBody ('\\' :: 'f' :: X) = (parseStrBody X).map (fun p => ('\x0c' :: p.1, p.2)) := by
  rw [parseStrBody.eq_def]; rfl

theorem parseStrBody_esc_u (h1 h2 h3 h4 : Char) (X : Str) :
    parseStrBody ('\\' :: 'u' :: h1 :: h2 :: h3 :: h4 :: X) =
      match hexVal h1, hexVal h2, hexVal h3, hexVal h4 with
      | some a, some b, some c3, some d =>
        (parseStrBody X).map
          (fun p => (Char.ofNat (((a * 16 + b) * 16 + c3) * 16 + d) :: p.1, p.2))
      | _, _, _, _ => none := by
  rw [parseStrBody.eq_def]; rfl

theorem parseStrBody_verbatim (c : Char) (X : Str) (h2 : c ≠ '"') (h3 : c ≠ '\\') :
    parseStrBody (c :: X) = (parseStrBody X).map (fun p => (c :: p.1, p.2)) := by
  rw [parseStrBody.eq_def]
  simp only [if_neg h2, if_neg h3]

theorem hexVal_hexDigit (n : Nat) (h : n < 16) : hexVal (hexDigit n) = some n := by
  interval_cases n <;> decide

theorem escChar_of_ctl (c : Char) (hlt : c.toNat < 0x20) (h1 : c ≠ '\n') (h2 : c ≠ '\t')
    (h3 : c ≠ '\r') (h4 : c ≠ '\x08') (h5 : c ≠ '\x0c') :
    escChar c = ['\\', 'u', '0', '0', hexDigit (c.toNat / 16), hexDigit (c.toNat % 16)] := by
  have hq : c ≠ '"' := by intro h; subst h; exact absurd hlt (by decide)
  have hb : c ≠ '\\' := by intro h; subst h; exact absurd hlt (by decide)
  unfold escChar
  rw [if_neg hq, if_neg hb, if_neg h1, if_neg h2, if_neg h3, if_neg h4, if_neg h5, if_pos hlt]

theorem escChar_verbatim (c : Char) (hge : 0x20 ≤ c.toNat) (h2 : c ≠ '"') (h3 : c ≠ '\\') :
    escChar c = [c] := by
  have h4 : c ≠ '\n' := by intro h; subst h; exact absurd hge (by decide)
  have h5 : c ≠ '\t' := by intro h; subst h; exact absurd hge (by decide)
  have h6 : c ≠ '\r' := by intro h; subst h; exact absurd hge (by decide)
  have h7 : c ≠ '\x08' := by intro h; subst h; exact absurd hge (by decide)
  have h8 : c ≠ '\x0c' := by intro h; subst h; exact absurd hge (by decide)
  have hn : ¬ c.toNat < 0x20 := by omega
  unfold escChar
  rw [if_neg h2, if_neg h3, if_neg h4, if_neg h5, if_neg h6, if_neg h7, if_neg h8, if_neg hn]

theorem parseStrBody_escStr (s : Str) : ∀ rest,
    parseStrBody (escStr s ++ '"' :: rest) = some (s, rest) := by
  induction s with
  | nil =>
    intro rest
    exact parseStrBody_quote rest
  | cons c cs ih =>
    intro rest
    have hesc : escStr (c :: cs) ++ '"' :: rest = escChar c ++ (escStr cs ++ '"' :: rest) := by
      simp [escStr]
    rw [hesc]
    by_cases hq : c = '"'
    · subst hq
      show parseStrBody ('\\' :: '"' :: (escStr cs ++ '"' :: rest)) = some ('"' :: cs, rest)
      rw [parseStrBody_esc_quote, ih rest]
      rfl
    · by_cases hb : c = '\\'
      · subst hb
        show parseStrBody ('\\' :: '\\' :: (escStr cs ++ '"' :: rest)) = some ('\\' :: cs, rest)
        rw [parseStrBody_esc_back, ih rest]
        rfl
      · by_cases hn : c = '\n'
        · subst hn
          show parseStrBody ('\\' :: 'n' :: (escStr cs ++ '"' :: rest)) = some ('\n' :: cs, rest)
          rw [parseStrBody_esc_n, ih rest]
          rfl
        · by_cases ht : c = '\t'
          · subst ht
            show parseStrBody ('\\' :: 't' :: (escStr cs ++ '"' :: rest)) = some ('\t' :: cs, rest)
            rw [parseStrBody_esc_t, ih rest]
            rfl
          · by_cases hr : c = '\r'
            · subst hr
              show parseStrBody ('\\' :: 'r' :: (escStr cs ++ '"' :: rest)) =
                some ('\r' :: cs, rest)
              rw [parseStrBody_esc_r, ih rest]
              rfl
            · by_cases h8 : c = '\x08'
              · subst h8
                show parseStrBody ('\\' :: 'b' :: (escStr cs ++ '"' :: rest)) =
                  some ('\x08' :: cs, rest)
                rw [parseStrBody_esc_b, ih rest]
                rfl
              · by_cases hf : c = '\x0c'
                · subst hf
                  show parseStrBody ('\\' :: 'f' :: (escStr cs ++ '"' :: rest)) =
                    some ('\x0c' :: cs, rest)
                  rw [parseStrBody_esc_f, ih rest]
                  rfl
                · by_cases hctl : c.toNat < 0x20
                  · rw [escChar_of_ctl c hctl hn ht hr h8 hf]
                    show parseStrBody ('\\' :: 'u' :: '0' :: '0' ::
                        hexDigit (c.toNat / 16) :: hexDigit (c.toNat % 16) ::
                        (escStr cs ++ '"' :: rest)) = some (c :: cs, rest)
                    rw [parseStrBody_esc_u]
                    rw [show hexVal '0' = some 0 from rfl]
                    rw [hexVal_hexDigit (c.toNat / 16) (by omega),
                      hexVal_hexDigit (c.toNat % 16) (by omega)]
                    show (parseStrBody (escStr cs ++ '"' :: rest)).map
                      (fun p => (Char.ofNat (((0 * 16 + 0) * 16 + c.toNat / 16) * 16 +
                        c.toNat % 16) :: p.1, p.2)) = some (c :: cs, rest)
                    rw [ih rest]
                    have harith : ((0 * 16 + 0) * 16 + c.toNat / 16) * 16 + c.toNat % 16 =
                        c.toNat := by omega
                    rw [harith, Char.ofNat_toNat]
                    rfl
                  · rw [escChar_verbatim c (by omega) hq hb]
                    show parseStrBody (c :: (escStr cs ++ '"' :: rest)) = some (c :: cs, rest)
                    rw [parseStrBody_verbatim c _ hq hb, ih rest]
                    rfl

/-! ## Lemmas for the corpus file round trip: whitespace and head shapes -/

theorem skipWs_all_ws (ws : Str) (h : ∀ c ∈ ws, isWsJ c = true) (s : Str) :
    skipWs (ws ++ s) = skipWs s := by
  induction ws with
  | nil => rfl
  | cons c cs ih =>
    have hc := h c (List.mem_cons_self _ _)
    show skipWs (c :: (cs ++ s)) = skipWs s
    rw [skipWs, List.dropWhile_cons, if_pos hc]
    exact ih (fun a ha => h a (List.mem_cons_of_mem _ ha))

theorem skipWs_cons_neg (c : Char) (s : Str) (h : isWsJ c = false) :
    skipWs (c :: s) = c :: s := by
  rw [skipWs, List.dropWhile_cons, if_neg (by simp [h])]

theorem ind_all_ws (d : Nat) : ∀ c ∈ ind d, isWsJ c = true := by
  intro c hc
  rw [ind] at hc
  rw [List.eq_of_mem_replicate hc]
  decide

/-- Every rendered value starts with a quote or an opening bracket: never
whitespace, never a closing bracket, and never a comma. -/
theorem renderVal_cons (d : Nat) (j : JVal) : ∃ c t, renderVal d j = c :: t ∧
    isWsJ c = false ∧ c ≠ ']' ∧ c ≠ '\x7d' := by
  cases j with
  | jstr s => exact ⟨'"', _, rfl, by decide, by decide, by decide⟩
  | jarr xs =>
    cases xs with
    | nil => exact ⟨'[', _, rfl, by decide, by decide, by decide⟩
    | cons x xs => exact ⟨'[', _, rfl, by decide, by decide, by decide⟩
  | jobj fs =>
    cases fs with
    | nil => exact ⟨'\x7b', _, rfl, by decide, by decide, by decide⟩
    | cons f fs => exact ⟨'\x7b', _, rfl, by decide, by decide, by decide⟩

theorem skipWs_renderVal (d : Nat) (j : JVal) (r : Str) :
    skipWs (renderVal d j ++ r) = renderVal d j ++ r := by
  obtain ⟨c, t, hct, hws, _, _⟩ := renderVal_cons d j
  rw [hct]
  exact skipWs_cons_neg c (t ++ r) hws

theorem headIsChar_rbrack_renderVal (d : Nat) (j : JVal) (r : Str) :
    headIsChar ']' (renderVal d j ++ r) = false := by
  obtain ⟨c, t, hct, _, hc, _⟩ := renderVal_cons d j
  rw [hct]
  simp [headIsChar, hc]

theorem headIsChar_rbrace_renderVal (d : Nat) (j : JVal) (r : Str) :
    headIsChar '\x7d' (renderVal d j ++ r) = false := by
  obtain ⟨c, t, hct, _, _, hc⟩ := renderVal_cons d j
  rw [hct]
  simp [headIsChar, hc]

/-- A rendered field starts with the quote of its key. -/
theorem renderField_shape (d : Nat) (f : Str × JVal) (r : Str) :
    renderField d f ++ r =
      '"' :: (escStr f.1 ++ '"' :: (':' :: ' ' :: (renderVal d f.2 ++ r))) := by
  cases f with
  | mk k v => simp [renderField, renderStr]

theorem skipWs_renderField (d : Nat) (f : Str × JVal) (r : Str) :
    skipWs (renderField d f ++ r) = renderField d f ++ r := by
  rw [renderField_shape]
  exact skipWs_cons_neg _ _ (by decide)

theorem headIsChar_rbrace_renderField (d : Nat) (f : Str × JVal) (r : Str) :
    headIsChar '\x7d' (renderField d f ++ r) = false := by
  rw [renderField_shape]
  simp [headIsChar]

/-- The fueled reader ignores leading insignificant whitespace. -/
theorem parseValue_ws (fuel : Nat) (ws s : Str) (h : ∀ c ∈ ws, isWsJ c = true) :
    parseValue fuel (ws ++ s) = parseValue fuel s := by
  cases fuel with
  | zero => rfl
  | succ f =>
    show (match skipWs (ws ++ s) with
      | '"' :: rest => (parseStrBody rest).map (fun p => (JVal.jstr p.1, p.2))
      | '[' :: rest =>
        if headIsChar ']' (skipWs rest) then some (.jarr [], (skipWs rest).tail)
        else (parseItems f rest).map (fun p => (.jarr p.1, p.2))
      | '\x7b' :: rest =>
        if headIsChar '\x7d' (skipWs rest) then some (.jobj [], (skipWs rest).tail)
        else (parseFields f rest).map (fun p => (.jobj p.1, p.2))
      | _ => none) = parseValue (f + 1) s
    rw [skipWs_all_ws ws h s]
    rfl

/-! ## Lemmas for the corpus file round trip: sufficient fuel -/

theorem needV_pos (j : JVal) : 1 ≤ needV j := by
  cases j with
  | jstr s => exact Nat.le_refl 1
  | jarr xs => cases xs <;> simp [needV]
  | jobj fs => cases fs <;> simp [needV]

mutual

theorem needV_le : ∀ (j : JVal) (d : Nat), needV j ≤ (renderVal d j).length
  | .jstr s, d => by simp [needV, renderVal, renderStr]
  | .jarr [], d => by simp [needV, renderVal]
  | .jarr (x :: xs), d => by
    have h := needItems_le x xs (d + 1)
    show 1 + needItems (x :: xs) ≤ _
    simp only [renderVal, List.length_cons, List.length_append]
    omega
  | .jobj [], d => by simp [needV, renderVal]
  | .jobj ((k, v) :: fs), d => by
    have h := needFs_le k v fs (d + 1)
    show 1 + needFs ((k, v) :: fs) ≤ _
    simp only [renderVal, List.length_cons, List.length_append]
    omega
termination_by j d => sizeOf j

theorem needItems_le : ∀ (x : JVal) (xs : List JVal) (d : Nat),
    needItems (x :: xs) ≤ (renderVal d x).length + (renderArrTail d xs).length + 1
  | x, [], d => by
    have h := needV_le x d
    show 1 + Nat.max (needV x) (needItems []) ≤ _
    have hmax : Nat.max (needV x) (needItems []) = needV x := by
      simp [needItems]
    rw [hmax]
    simp only [renderArrTail, List.length_nil]
    omega
  | x, y :: ys, d => by
    have hx := needV_le x d
    have hy := needItems_le y ys d
    show 1 + Nat.max (needV x) (needItems (y :: ys)) ≤ _
    have hmax : Nat.max (needV x) (needItems (y :: ys)) ≤
        (renderVal d x).length + ((renderVal d y).length + (renderArrTail d ys).length + 1) :=
      Nat.max_le.mpr ⟨Nat.le_trans hx (Nat.le_add_right _ _),
        Nat.le_trans hy (Nat.le_add_left _ _)⟩
    simp only [renderArrTail, List.length_cons, List.length_append]
    omega
termination_by x xs d => sizeOf x + sizeOf xs

theorem needFs_le : ∀ (k : Str) (v : JVal) (fs : List (Str × JVal)) (d : Nat),
    needFs ((k, v) :: fs) ≤ (renderField d (k, v)).length + (renderObjTail d fs).length + 1
  | k, v, [], d => by
    have h := needV_le v d
    have hlen : (renderVal d v).length ≤ (renderField d (k, v)).length := by
      simp only [renderField, renderStr, List.length_append, List.length_cons]
      omega
    show 1 + Nat.max (needV v) (needFs []) ≤ _
    have hmax : Nat.max (needV v) (needFs []) = needV v := by
      simp [needFs]
    rw [hmax]
    simp only [renderObjTail, List.length_nil]
    omega
  | k, v, (k2, v2) :: gs, d => by
    have hx := needV_le v d
    have hy := needFs_le k2 v2 gs d
    have hlen : (renderVal d v).length ≤ (renderField d (k, v)).length := by
      simp only [renderField, renderStr, List.length_append, List.length_cons]
      omega
    show 1 + Nat.max (needV v) (needFs ((k2, v2) :: gs)) ≤ _
    have hmax : Nat.max (needV v) (needFs ((k2, v2) :: gs)) ≤
        (renderField d (k, v)).length +
          ((renderField d (k2, v2)).length + (renderObjTail d gs).length + 1) :=
      Nat.max_le.mpr ⟨Nat.le_trans hx (Nat.le_trans hlen (Nat.le_add_right _ _)),
        Nat.le_trans hy (Nat.le_add_left _ _)⟩
    simp only [renderObjTail, List.length_cons, List.length_append]
    omega
termination_by k v fs d => sizeOf v + sizeOf fs

end



/-! ## Lemmas for the corpus file round trip: the reader on rendered text -/

theorem nl_ind_all_ws (d : Nat) : ∀ c ∈ ('\n' :: ind d), isWsJ c = true := by
  intro c hc
  rcases List.mem_cons.mp hc with h | h
  · subst h; decide
  · exact ind_all_ws d c h

theorem parseValue_quote_step (f : Nat) (X : Str) :
    parseValue (f + 1) ('"' :: X) =
      (parseStrBody X).map (fun p => (JVal.jstr p.1, p.2)) := rfl

theorem parseValue_lbrack_step (f : Nat) (X : Str) :
    parseValue (f + 1) ('[' :: X) =
      if headIsChar ']' (skipWs X) then some (.jarr [], (skipWs X).tail)
      else (parseItems f X).map (fun p => (.jarr p.1, p.2)) := rfl

theorem parseValue_lbrace_step (f : Nat) (X : Str) :
    parseValue (f + 1) ('\x7b' :: X) =
      if headIsChar '\x7d' (skipWs X) then some (.jobj [], (skipWs X).tail)
      else (parseFields f X).map (fun p => (.jobj p.1, p.2)) := rfl

theorem parseItems_step (f : Nat) (s : Str) :
    parseItems (f + 1) s = (parseValue f s).bind (fun p =>
      match skipWs p.2 with
      | ',' :: r2 => (parseItems f r2).map (fun q => (p.1 :: q.1, q.2))
      | ']' :: r2 => some ([p.1], r2)
      | _ => none) := rfl

theorem parseFields_step (f : Nat) (s : Str) :
    parseFields (f + 1) s =
      (match skipWs s with
       | '"' :: r =>
         (parseStrBody r).bind (fun pk =>
           match skipWs pk.2 with
           | ':' :: r2 =>
             (parseValue f r2).bind (fun pv =>
               match skipWs pv.2 with
               | ',' :: r4 => (parseFields f r4).map (fun q => ((pk.1, pv.1) :: q.1, q.2))
               | '\x7d' :: r4 => some ([(pk.1, pv.1)], r4)
               | _ => none)
           | _ => none)
       | _ => none) := rfl

theorem renderFieldShape (d : Nat) (k : Str) (v : JVal) (r : Str) :
    renderField d (k, v) ++ r =
      '"' :: (escStr k ++ '"' :: (':' :: ' ' :: (renderVal d v ++ r))) := by
  simp [renderField, renderStr]

mutual

theorem parseValue_render : ∀ (j : JVal) (fuel d : Nat) (ws rest : Str),
    (∀ c ∈ ws, isWsJ c = true) → needV j ≤ fuel →
    parseValue fuel (ws ++ (renderVal d j ++ rest)) = some (j, rest)
  | .jstr s, fuel, d, ws, rest, hws, hfuel => by
    obtain ⟨f, rfl⟩ : ∃ f, fuel = f + 1 :=
      ⟨fuel - 1, by have h : 1 ≤ fuel := hfuel; omega⟩
    rw [parseValue_ws _ _ _ hws]
    rw [show renderVal d (.jstr s) ++ rest = '"' :: (escStr s ++ '"' :: rest) by
      simp [renderVal, renderStr]]
    rw [parseValue_quote_step, parseStrBody_escStr]
    rfl
  | .jarr [], fuel, d, ws, rest, hws, hfuel => by
    obtain ⟨f, rfl⟩ : ∃ f, fuel = f + 1 :=
      ⟨fuel - 1, by have h : 1 ≤ fuel := hfuel; omega⟩
    rw [parseValue_ws _ _ _ hws]
    rw [show renderVal d (.jarr []) ++ rest = '[' :: ']' :: rest by simp [renderVal]]
    rfl
  | .jarr (x :: xs), fuel, d, ws, rest, hws, hfuel => by
    obtain ⟨f, rfl⟩ : ∃ f, fuel = f + 1 :=
      ⟨fuel - 1, by
        have h : 1 + needItems (x :: xs) ≤ fuel := hfuel
        omega⟩
    have hfi : needItems (x :: xs) ≤ f := by
      have h : 1 + needItems (x :: xs) ≤ f + 1 := hfuel
      omega
    rw [parseValue_ws _ _ _ hws]
    rw [show renderVal d (.jarr (x :: xs)) ++ rest =
        '[' :: (('\n' :: ind (d + 1)) ++ (renderVal (d + 1) x ++ (renderArrTail (d + 1) xs ++
          (('\n' :: ind d) ++ ']' :: rest)))) by
      simp [renderVal, List.cons_append, List.append_assoc]]
    rw [parseValue_lbrack_step]
    have hskip : skipWs (('\n' :: ind (d + 1)) ++ (renderVal (d + 1) x ++
        (renderArrTail (d + 1) xs ++ (('\n' :: ind d) ++ ']' :: rest)))) =
        renderVal (d + 1) x ++
          (renderArrTail (d + 1) xs ++ (('\n' :: ind d) ++ ']' :: rest)) := by
      rw [skipWs_all_ws _ (nl_ind_all_ws (d + 1)), skipWs_renderVal]
    have hcond : ¬ (headIsChar ']' (skipWs (('\n' :: ind (d + 1)) ++ (renderVal (d + 1) x ++
        (renderArrTail (d + 1) xs ++ (('\n' :: ind d) ++ ']' :: rest))))) = true) := by
      rw [hskip, headIsChar_rbrack_renderVal]
      simp
    rw [if_neg hcond]
    rw [parseItems_render x xs f (d + 1) ('\n' :: ind (d + 1)) ('\n' :: ind d) rest
      (nl_ind_all_ws _) (nl_ind_all_ws _) hfi]
    rfl
  | .jobj [], fuel, d, ws, rest, hws, hfuel => by
    obtain ⟨f, rfl⟩ : ∃ f, fuel = f + 1 :=
      ⟨fuel - 1, by have h : 1 ≤ fuel := hfuel; omega⟩
    rw [parseValue_ws _ _ _ hws]
    rw [show renderVal d (.jobj []) ++ rest = '\x7b' :: '\x7d' :: rest by simp [renderVal]]
    rfl
  | .jobj ((k, v) :: fs), fuel, d, ws, rest, hws, hfuel => by
    obtain ⟨f, rfl⟩ : ∃ f, fuel = f + 1 :=
      ⟨fuel - 1, by
        have h : 1 + needFs ((k, v) :: fs) ≤ fuel := hfuel
        omega⟩
    have hfi : needFs ((k, v) :: fs) ≤ f := by
      have h : 1 + needFs ((k, v) :: fs) ≤ f + 1 := hfuel
      omega
    rw [parseValue_ws _ _ _ hws]
    rw [show renderVal d (.jobj ((k, v) :: fs)) ++ rest =
        '\x7b' :: (('\n' :: ind (d + 1)) ++ (renderField (d + 1) (k, v) ++
          (renderObjTail (d + 1) fs ++ (('\n' :: ind d) ++ '\x7d' :: rest)))) by
      simp [renderVal, List.cons_append, List.append_assoc]]
    rw [parseValue_lbrace_step]
    have hskip : skipWs (('\n' :: ind (d + 1)) ++ (renderField (d + 1) (k, v) ++
        (renderObjTail (d + 1) fs ++ (('\n' :: ind d) ++ '\x7d' :: rest)))) =
        renderField (d + 1) (k, v) ++
          (renderObjTail (d + 1) fs ++ (('\n' :: ind d) ++ '\x7d' :: rest)) := by
      rw [skipWs_all_ws _ (nl_ind_all_ws (d + 1))]
      rw [renderFieldShape]
      exact skipWs_cons_neg _ _ (by decide)
    have hcond : ¬ (headIsChar '\x7d' (skipWs (('\n' :: ind (d + 1)) ++
        (renderField (d + 1) (k, v) ++ (renderObjTail (d + 1) fs ++
          (('\n' :: ind d) ++ '\x7d' :: rest))))) = true) := by
      rw [hskip, renderFieldShape]
      simp [headIsChar]
    rw [if_neg hcond]
    rw [parseFields_render k v fs f (d + 1) ('\n' :: ind (d + 1)) ('\n' :: ind d) rest
      (nl_ind_all_ws _) (nl_ind_all_ws _) hfi]
    rfl
termination_by j _ _ _ _ _ _ => sizeOf j

theorem parseItems_render : ∀ (x : JVal) (xs : List JVal) (fuel d : Nat) (ws₁ ws₂ rest : Str),
    (∀ c ∈ ws₁, isWsJ c = true) → (∀ c ∈ ws₂, isWsJ c = true) →
    needItems (x :: xs) ≤ fuel →
    parseItems fuel
        (ws₁ ++ (renderVal d x ++ (renderArrTail d xs ++ (ws₂ ++ ']' :: rest)))) =
      some (x :: xs, rest)
  | x, [], fuel, d, ws₁, ws₂, rest, hws₁, hws₂, hfuel => by
    obtain ⟨f, rfl⟩ : ∃ f, fuel = f + 1 :=
      ⟨fuel - 1, by
        have h : 1 + Nat.max (needV x) (needItems []) ≤ fuel := hfuel
        omega⟩
    have hfx : needV x ≤ f := by
      have h : 1 + Nat.max (needV x) (needItems []) ≤ f + 1 := hfuel
      have h2 : needV x ≤ Nat.max (needV x) (needItems []) := Nat.le_max_left _ _
      omega
    rw [parseItems_step]
    rw [parseValue_render x f d ws₁ (renderArrTail d [] ++ (ws₂ ++ ']' :: rest)) hws₁ hfx]
    simp only [Option.some_bind]
    simp only [renderArrTail, List.nil_append]
    rw [skipWs_all_ws ws₂ hws₂, skipWs_cons_neg _ _ (by decide)]
    rfl
  | x, y :: ys, fuel, d, ws₁, ws₂, rest, hws₁, hws₂, hfuel => by
    obtain ⟨f, rfl⟩ : ∃ f, fuel = f + 1 :=
      ⟨fuel - 1, by
        have h : 1 + Nat.max (needV x) (needItems (y :: ys)) ≤ fuel := hfuel
        omega⟩
    have hfx : needV x ≤ f := by
      have h : 1 + Nat.max (needV x) (needItems (y :: ys)) ≤ f + 1 := hfuel
      have h2 : needV x ≤ Nat.max (needV x) (needItems (y :: ys)) := Nat.le_max_left _ _
      omega
    have hfy : needItems (y :: ys) ≤ f := by
      have h : 1 + Nat.max (needV x) (needItems (y :: ys)) ≤ f + 1 := hfuel
      have h2 : needItems (y :: ys) ≤ Nat.max (needV x) (needItems (y :: ys)) :=
        Nat.le_max_right _ _
      omega
    rw [parseItems_step]
    rw [parseValue_render x f d ws₁
      (renderArrTail d (y :: ys) ++ (ws₂ ++ ']' :: rest)) hws₁ hfx]
    simp only [Option.some_bind]
    simp only [renderArrTail, List.cons_append, List.append_assoc]
    rw [skipWs_cons_neg _ _ (by decide)]
    have hIH := parseItems_render y ys f d ('\n' :: ind d) ws₂ rest
      (nl_ind_all_ws d) hws₂ hfy
    rw [List.cons_append] at hIH
    simp only [hIH, Option.map_some']
termination_by x xs _ _ _ _ _ _ _ _ => sizeOf x + sizeOf xs

theorem parseFields_render : ∀ (k : Str) (v : JVal) (fs : List (Str × JVal)) (fuel d : Nat)
      (ws₁ ws₂ rest : Str),
    (∀ c ∈ ws₁, isWsJ c = true) → (∀ c ∈ ws₂, isWsJ c = true) →
    needFs ((k, v) :: fs) ≤ fuel →
    parseFields fuel
        (ws₁ ++ (renderField d (k, v) ++ (renderObjTail d fs ++ (ws₂ ++ '\x7d' :: rest)))) =
      some ((k, v) :: fs, rest)
  | k, v, [], fuel, d, ws₁, ws₂, rest, hws₁, hws₂, hfuel => by
    obtain ⟨f, rfl⟩ : ∃ f, fuel = f + 1 :=
      ⟨fuel - 1, by
        have h : 1 + Nat.max (needV v) (needFs []) ≤ fuel := hfuel
        omega⟩
    have hfv : needV v ≤ f := by
      have h : 1 + Nat.max (needV v) (needFs []) ≤ f + 1 := hfuel
      have h2 : needV v ≤ Nat.max (needV v) (needFs []) := Nat.le_max_left _ _
      omega
    rw [parseFields_step]
    rw [skipWs_all_ws ws₁ hws₁, renderFieldShape]
    rw [skipWs_cons_neg _ _ (by decide)]
    have hIH := parseValue_render v f d [' ']
      (renderObjTail d [] ++ (ws₂ ++ '\x7d' :: rest)) (by decide) hfv
    rw [List.singleton_append] at hIH
    simp only [parseStrBody_escStr, Option.some_bind]
    rw [skipWs_cons_neg _ _ (by decide)]
    simp only [hIH, Option.some_bind]
    simp only [renderObjTail, List.nil_append]
    rw [skipWs_all_ws ws₂ hws₂, skipWs_cons_neg _ _ (by decide)]
    rfl
  | k, v, (k2, v2) :: gs, fuel, d, ws₁, ws₂, rest, hws₁, hws₂, hfuel => by
    obtain ⟨f, rfl⟩ : ∃ f, fuel = f + 1 :=
      ⟨fuel - 1, by
        have h : 1 + Nat.max (needV v) (needFs ((k2, v2) :: gs)) ≤ fuel := hfuel
        omega⟩
    have hfv : needV v ≤ f := by
      have h : 1 + Nat.max (needV v) (needFs ((k2, v2) :: gs)) ≤ f + 1 := hfuel
      have h2 : needV v ≤ Nat.max (needV v) (needFs ((k2, v2) :: gs)) := Nat.le_max_left _ _
      omega
    have hfg : needFs ((k2, v2) :: gs) ≤ f := by
      have h : 1 + Nat.max (needV v) (needFs ((k2, v2) :: gs)) ≤ f + 1 := hfuel
      have h2 : needFs ((k2, v2) :: gs) ≤ Nat.max (needV v) (needFs ((k2, v2) :: gs)) :=
        Nat.le_max_right _ _
      omega
    rw [parseFields_step]
    rw [skipWs_all_ws ws₁ hws₁, renderFieldShape]
    rw [skipWs_cons_neg _ _ (by decide)]
    have hIH := parseValue_render v f d [' ']
      (renderObjTail d ((k2, v2) :: gs) ++ (ws₂ ++ '\x7d' :: rest)) (by decide) hfv
    rw [List.singleton_append] at hIH
    simp only [parseStrBody_escStr, Option.some_bind]
    rw [skipWs_cons_neg _ _ (by decide)]
    simp only [hIH, Option.some_bind]
    simp only [renderObjTail, List.cons_append, List.append_assoc]
    rw [skipWs_cons_neg _ _ (by decide)]
    have hIH2 := parseFields_render k2 v2 gs f d ('\n' :: ind d) ws₂ rest
      (nl_ind_all_ws d) hws₂ hfg
    rw [List.cons_append] at hIH2
    simp only [hIH2, Option.map_some']
termination_by _ v fs _ _ _ _ _ _ _ _ => sizeOf v + sizeOf fs

end

/-! ## Lemmas for the corpus file round trip: loading and decoding -/

theorem json_loads_render (j : JVal) : json_loads (renderVal 0 j) = some j := by
  unfold json_loads
  have hfuel : needV j ≤ (renderVal 0 j).length + 1 :=
    Nat.le_trans (needV_le j 0) (Nat.le_succ _)
  have h := parseValue_render j ((renderVal 0 j).length + 1) 0 [] []
    (by intro c hc; cases hc) hfuel
  rw [List.nil_append, List.append_nil] at h
  rw [h]
  rfl

theorem blockOfJson_jsonOfBlock (b : ContentBlock) : blockOfJson (jsonOfBlock b) = some b := by
  cases b <;> rfl

theorem mapListO_blocks (l : List ContentBlock) :
    mapListO blockOfJson (l.map jsonOfBlock) = some l := by
  induction l with
  | nil => rfl
  | cons b bs ih => simp [mapListO, blockOfJson_jsonOfBlock, ih]

theorem docOfJson_jsonOfDoc (d : Legislation) : docOfJson (jsonOfDoc d) = some d := by
  have h : docOfJson (jsonOfDoc d) =
      (mapListO blockOfJson (d.content.map jsonOfBlock)).map
        (fun content => ⟨d.title, content, d.url⟩) := rfl
  rw [h, mapListO_blocks]
  rfl

theorem corpusOfJson_jsonOfCorpus (ds : List Legislation) :
    corpusOfJson (jsonOfCorpus ds) = some ds := by
  show mapListO docOfJson (ds.map jsonOfDoc) = some ds
  induction ds with
  | nil => rfl
  | cons d rest ih => simp [mapListO, docOfJson_jsonOfDoc, ih]

/-! ## Lemmas for the corpus file round trip: verbatim characters -/

theorem mem_escStr (c : Char) (s : Str) (hc : c ∈ s) (hge : 0x20 ≤ c.toNat)
    (h2 : c ≠ '"') (h3 : c ≠ '\\') : c ∈ escStr s := by
  apply List.mem_flatten_of_mem (List.mem_map_of_mem escChar hc)
  rw [escChar_verbatim c hge h2 h3]
  exact List.mem_singleton.mpr rfl

theorem mem_renderStr (c : Char) (s : Str) (h : c ∈ escStr s) : c ∈ renderStr s :=
  List.mem_cons_of_mem _ (List.mem_append_left _ h)

theorem mem_renderVal_title (c : Char) (doc : Legislation) (dd : Nat)
    (h : c ∈ renderStr doc.title) : c ∈ renderVal dd (jsonOfDoc doc) := by
  show c ∈ renderVal dd (JVal.jobj [(str "title", .jstr doc.title),
    (str "content", .jarr (doc.content.map jsonOfBlock)), (str "url", .jstr doc.url)])
  simp [renderVal, renderField, renderObjTail, List.mem_append, List.mem_cons, h]

theorem mem_renderArrTail (c : Char) (x : JVal) (d : Nat) :
    ∀ xs : List JVal, x ∈ xs → c ∈ renderVal d x → c ∈ renderArrTail d xs := by
  intro xs
  induction xs with
  | nil => intro h _; cases h
  | cons y ys ih =>
    intro hx hc
    rcases List.mem_cons.mp hx with h | h
    · subst h
      simp [renderArrTail, List.mem_append, List.mem_cons, hc]
    · simp [renderArrTail, List.mem_append, List.mem_cons, ih h hc]

theorem mem_json_dump (c : Char) (doc : Legislation) (ds : List Legislation)
    (hd : doc ∈ ds) (h : c ∈ renderStr doc.title) : c ∈ json_dump_corpus ds := by
  cases ds with
  | nil => cases hd
  | cons d0 rest =>
    show c ∈ '[' :: '\n' :: (ind 1 ++ renderVal 1 (jsonOfDoc d0) ++
      renderArrTail 1 (rest.map jsonOfDoc) ++ '\n' :: (ind 0 ++ [']']))
    rcases List.mem_cons.mp hd with he | he
    · subst he
      have hm := mem_renderVal_title c doc 1 h
      apply List.mem_cons_of_mem
      apply List.mem_cons_of_mem
      apply List.mem_append_left
      apply List.mem_append_left
      exact List.mem_append_right _ hm
    · have hm := mem_renderVal_title c doc 1 h
      have ha := mem_renderArrTail c (jsonOfDoc doc) 1 (rest.map jsonOfDoc)
        (List.mem_map_of_mem _ he) hm
      apply List.mem_cons_of_mem
      apply List.mem_cons_of_mem
      apply List.mem_append_left
      exact List.mem_append_right _ ha

/-- C8: deserializing the corpus file written by `save_data_to_file` restores
the extracted records exactly — same order, same text — and every character
of a title that the encoder does not escape, all non-ASCII characters
included, appears verbatim in the persisted text. -/
theorem corpus_roundtrip (ds : List Legislation) :
    json_load_corpus (json_dump_corpus ds) = some ds ∧
    ∀ doc ∈ ds, ∀ c ∈ doc.title, 0x20 ≤ c.toNat → c ≠ '"' → c ≠ '\\' →
      c ∈ json_dump_corpus ds := by
  constructor
  · unfold json_load_corpus json_dump_corpus
    rw [json_loads_render]
    rw [show (some (jsonOfCorpus ds)).bind corpusOfJson = corpusOfJson (jsonOfCorpus ds)
      from rfl]
    exact corpusOfJson_jsonOfCorpus ds
  · intro doc hd c hc hge h2 h3
    exact mem_json_dump c doc ds hd
      (mem_renderStr c doc.title (mem_escStr c doc.title hc hge h2 h3))

/-- Witness for C8 on a Turkish-language corpus record. -/
theorem corpus_roundtrip_witness :
    json_load_corpus (json_dump_corpus corpusTR) = some corpusTR ∧
    'ğ' ∈ json_dump_corpus corpusTR :=
  ⟨(corpus_roundtrip corpusTR).1,
   (corpus_roundtrip corpusTR).2
     ⟨str "Sağlık Yönetmeliği",
      [.flat (str "Tüm bireyler sağlık hizmetlerine erişebilir."),
       .sect (str "Şartlar") (str "18 yaşından büyük olmak gerekir.")],
      str "/doc/saglik"⟩ (by decide) 'ğ' (by decide) (by decide) (by decide) (by decide)⟩

/-- Witness for C10: an unknown model type errors, and for the claude family
with empty parameters the temperature field gets its fixed default. -/
theorem cim_error_iff_unknown_and_defaults_witness :
    ((∃ e, CreateInferenceModifier (str "mistral") none [] = .error e) ↔
      str "mistral" ∉ cimKnown) ∧
    ∃ out, CreateInferenceModifier (str "claude") (some []) [] = .ok out ∧
      ∀ okey pkey defv, (okey, pkey, defv) ∈ cimDefaults (str "claude") →
        pget [] pkey = none → pget out okey = some defv :=
  ⟨cim_error_iff_unknown_and_defaults.1 (str "mistral") none [],
   cim_error_iff_unknown_and_defaults.2 (str "claude") (by decide) []⟩

end OrientATIon
